import Mathlib

/-!
Verification of the bucketing/tiering logic of the Polycast-AI wordfreq
exporters.  Raw frequencies (Python floats in [0,1]) are modelled as
rationals; ranks and totals (Python ints) as integers.
-/

/-- Flat 1-5 scale from a raw frequency
(src/export_wordfreq.py, `convert_frequency_to_scale`). -/
def convert_frequency_to_scale (freq : ℚ) : ℕ :=
  if freq = 0 then 1
  else if freq < 1e-6 then 1
  else if freq < 1e-5 then 2
  else if freq < 1e-4 then 3
  else if freq < 1e-3 then 4
  else 5

/-- Detailed 1-10 scale from a raw frequency
(src/export_wordfreq_tiered.py, `convert_frequency_to_detailed_scale`). -/
def convert_frequency_to_detailed_scale (freq : ℚ) : ℚ :=
  if freq = 0 then 1.0
  else if freq < 1e-7 then 1.0
  else if freq < 5e-7 then 1.5
  else if freq < 1e-6 then 2.0
  else if freq < 5e-6 then 2.5
  else if freq < 1e-5 then 3.0
  else if freq < 5e-5 then 4.0
  else if freq < 1e-4 then 5.0
  else if freq < 5e-4 then 6.0
  else if freq < 1e-3 then 7.0
  else if freq < 5e-3 then 8.0
  else if freq < 1e-2 then 9.0
  else 10.0

/-- User-facing 1-5 scale from a 1-based rank and the total word count
(src/export_wordfreq_tiered.py, `convert_to_user_scale_by_rank`). -/
def convert_to_user_scale_by_rank (rank total_words : ℤ) : ℕ :=
  let percentile : ℚ := ((total_words : ℚ) - (rank : ℚ) + 1) / (total_words : ℚ)
  if percentile ≥ 0.96875 then 5
  else if percentile ≥ 0.90625 then 4
  else if percentile ≥ 0.78125 then 3
  else if percentile ≥ 0.53125 then 2
  else 1

/-- Step function stated by the spec for the flat scale: `f==0 or f<1e-6`
gives 1, `<1e-5` gives 2, `<1e-4` gives 3, `<1e-3` gives 4, otherwise 5. -/
def flatScaleStep (f : ℚ) : ℕ :=
  if f = 0 ∨ f < 1e-6 then 1
  else if f < 1e-5 then 2
  else if f < 1e-4 then 3
  else if f < 1e-3 then 4
  else 5

/-- Step function stated by the spec for the detailed scale
(thresholds 0→1.0; <1e-7→1.0; <5e-7→1.5; ...; else→10.0). -/
def detailedScaleStep (f : ℚ) : ℚ :=
  if f = 0 ∨ f < 1e-7 then 1.0
  else if f < 5e-7 then 1.5
  else if f < 1e-6 then 2.0
  else if f < 5e-6 then 2.5
  else if f < 1e-5 then 3.0
  else if f < 5e-5 then 4.0
  else if f < 1e-4 then 5.0
  else if f < 5e-4 then 6.0
  else if f < 1e-3 then 7.0
  else if f < 5e-3 then 8.0
  else if f < 1e-2 then 9.0
  else 10.0

/-- Table-driven elif chain: scan threshold/value pairs in order, return the
value at the first threshold strictly above the input, else the default. -/
def stepFun (dflt : ℚ) : List (ℚ × ℚ) → ℚ → ℚ
  | [], _ => dflt
  | (t, v) :: rest, f => if f < t then v else stepFun dflt rest f

/-- Threshold/value table of the detailed scale's elif chain. -/
def freqTable : List (ℚ × ℚ) :=
  [(1e-7, 1.0), (5e-7, 1.5), (1e-6, 2.0), (5e-6, 2.5), (1e-5, 3.0), (5e-5, 4.0),
   (1e-4, 5.0), (5e-4, 6.0), (1e-3, 7.0), (5e-3, 8.0), (1e-2, 9.0)]

/-- Percentile-threshold step function stated by the spec for the user-facing
rank frequency: percentile = (total - rank + 1)/total, then fixed cumulative
thresholds 0.96875, 0.90625, 0.78125, 0.53125. -/
def userScaleStep (rank total : ℤ) : ℕ :=
  let percentile : ℚ := ((total : ℚ) - (rank : ℚ) + 1) / (total : ℚ)
  if percentile ≥ 0.96875 then 5
  else if percentile ≥ 0.90625 then 4
  else if percentile ≥ 0.78125 then 3
  else if percentile ≥ 0.53125 then 2
  else 1

/-- Tier labels of the tiered exporter. -/
inductive Tier
  | core
  | extended
  | complete
deriving DecidableEq, Repr

/-- Tier assignment of the tiered exporter's loop: position i goes to core
when i < 15000, to extended when i < 65000, else to complete
(src/export_wordfreq_tiered.py, `export_tiered_language_data`). -/
def tierOf (i : ℕ) : Tier :=
  if i < 15000 then Tier.core
  else if i < 65000 then Tier.extended
  else Tier.complete

/-- One word entry of the tiered export: word, detailed frequency, 1-based
rank, and rank-based user frequency. -/
structure WordEntry where
  word : String
  frequency : ℚ
  rank : ℤ
  user_frequency : ℕ
deriving DecidableEq, Repr

/-- Entry built for the word at 0-based position i of the ranked list
(src/export_wordfreq_tiered.py, the loop body of
`export_tiered_language_data`; wf is the external per-word raw frequency). -/
def mkWordEntry (wf : String → ℚ) (total : ℕ) (i : ℕ) (w : String) : WordEntry :=
  { word := w
    frequency := convert_frequency_to_detailed_scale (wf w)
    rank := (i : ℤ) + 1
    user_frequency := convert_to_user_scale_by_rank ((i : ℤ) + 1) (total : ℤ) }

/-- The list of entries the tiered exporter appends to tier t, in order. -/
def tierEntries (wf : String → ℚ) (ws : List String) (t : Tier) : List WordEntry :=
  (ws.enum.filter (fun p => tierOf p.1 = t)).map
    (fun p => mkWordEntry wf ws.length p.1 p.2)

/-- The tier file's lookup object, built from the same tier entries by a
dict comprehension keyed on the word (later duplicates overwrite earlier
ones, hence the scan from the end). -/
def lookupOf (entries : List WordEntry) (w : String) : Option (ℚ × ℤ × ℕ) :=
  (entries.reverse.find? (fun x => x.word = w)).map
    (fun x => (x.frequency, x.rank, x.user_frequency))

/-- Candidate sizes tried by the auto-probe
(both exporters use the same list). -/
def test_sizes : List ℕ := [100000, 200000, 300000, 400000, 500000]

/-- One step of the auto-probe loop: on a failed call keep the current
best-known count; on a count smaller than the request return it at once;
otherwise record the count and continue
(src/export_wordfreq.py lines 32-48 and src/export_wordfreq_tiered.py
lines 69-84; src s models a `top_n_list` call returning the word count,
none models an exception). -/
def probeAux (src : ℕ → Option ℕ) : List ℕ → ℕ → ℕ
  | [], max_words => max_words
  | size :: rest, max_words =>
    match src size with
    | none => max_words
    | some len => if len < size then len else probeAux src rest len

/-- The auto-probe over the candidate list with the 50000-word floor. -/
def autoProbe (src : ℕ → Option ℕ) : ℕ :=
  probeAux src test_sizes 50000

/-- The successful calls the probe makes, in order, stopping at the first
failure (spec: probing for a language stops on a source-lookup failure). -/
def callsUntilFailure (src : ℕ → Option ℕ) : List ℕ → List (ℕ × ℕ)
  | [] => []
  | size :: rest =>
    match src size with
    | none => []
    | some len => (size, len) :: callsUntilFailure src rest

/-- The probe's result as the claim words it: the first returned count that
is smaller than its request, else the largest successful count, else the
default floor. -/
def claimProbeFrom (src : ℕ → Option ℕ) (sizes : List ℕ) (dflt : ℕ) : ℕ :=
  let calls := callsUntilFailure src sizes
  match calls.find? (fun p => p.2 < p.1) with
  | some p => p.2
  | none =>
    match calls with
    | [] => dflt
    | _ :: _ => (calls.map Prod.snd).foldl max 0

/-- Claim-side description of the auto-probe. -/
def claimProbe (src : ℕ → Option ℕ) : ℕ :=
  claimProbeFrom src test_sizes 50000

/-- A mocked source holding exactly N words: it answers every request req
with min N req words. -/
def minSrc (N : ℕ) : ℕ → Option ℕ :=
  fun req => some (min N req)

/-- Flat per-language frequency dict: one entry per distinct word, mapped to
the flat scale of its raw frequency (dict size = number of distinct words). -/
def freq_data (wf : String → ℚ) (ws : List String) : List (String × ℕ) :=
  ws.dedup.map (fun w => (w, convert_frequency_to_scale (wf w)))

/-- Flat exporter at language granularity: the whole body runs inside
try/except, so a fetch failure yields a zero count, success returns the
number of words written (src/export_wordfreq.py,
`export_language_frequencies`). -/
def export_language_frequencies (fetch : Except String (List String))
    (wf : String → ℚ) : ℕ :=
  match fetch with
  | Except.ok ws => (freq_data wf ws).length
  | Except.error _ => 0

/-- Tiered exporter at language granularity: a fetch failure yields a zero
count, success returns the total word count (src/export_wordfreq_tiered.py,
`export_tiered_language_data`). -/
def export_tiered_language_data (fetch : Except String (List String)) : ℕ :=
  match fetch with
  | Except.ok ws => ws.length
  | Except.error _ => 0

/-- The flat exporter's main loop over the configured languages
(langs are name/code pairs; fetchOf gives each code's fetch outcome). -/
def flatMain (langs : List (String × String))
    (fetchOf : String → Except String (List String))
    (wfOf : String → String → ℚ) : List ℕ :=
  langs.map (fun l => export_language_frequencies (fetchOf l.2) (wfOf l.2))

/-- The tiered exporter's main loop over the configured languages. -/
def tieredMain (langs : List (String × String))
    (fetchOf : String → Except String (List String)) : List ℕ :=
  langs.map (fun l => export_tiered_language_data (fetchOf l.2))

/-- The configured language set of both exporters. -/
def languages : List (String × String) :=
  [("English", "en"), ("Spanish", "es"), ("Portuguese", "pt")]

/-- Claim C1: the flat scale function always returns an integer in {1,...,5},
is monotonic non-decreasing in the raw frequency, and equals the spec's
step function. -/
theorem claim_C1_flat_scale (f g : ℚ) (hfg : f ≤ g) :
    (1 ≤ convert_frequency_to_scale f ∧ convert_frequency_to_scale f ≤ 5) ∧
    convert_frequency_to_scale f ≤ convert_frequency_to_scale g ∧
    convert_frequency_to_scale f = flatScaleStep f := by
  unfold convert_frequency_to_scale flatScaleStep
  refine ⟨?_, ?_, ?_⟩
  · split_ifs <;> omega
  · split_ifs <;> first | omega | (exfalso; linarith)
  · by_cases hf0 : f = 0
    · simp [hf0]
    · simp only [if_neg hf0, or_iff_right hf0]

theorem claim_C1_flat_scale_witness :
    (1 ≤ convert_frequency_to_scale 0.003 ∧ convert_frequency_to_scale 0.003 ≤ 5) ∧
    convert_frequency_to_scale 0.003 ≤ convert_frequency_to_scale 0.02 ∧
    convert_frequency_to_scale 0.003 = flatScaleStep 0.003 :=
  claim_C1_flat_scale 0.003 0.02 (by norm_num)

lemma detailed_eq_stepFun (f : ℚ) :
    convert_frequency_to_detailed_scale f =
      if f = 0 then 1.0 else stepFun 10.0 freqTable f := by
  simp only [convert_frequency_to_detailed_scale, freqTable, stepFun]

lemma stepFun_mem (dflt f : ℚ) :
    ∀ table : List (ℚ × ℚ), stepFun dflt table f ∈ table.map Prod.snd ++ [dflt]
  | [] => by simp [stepFun]
  | (t, v) :: rest => by
    simp only [stepFun, List.map_cons, List.cons_append, List.mem_cons]
    split_ifs
    · exact Or.inl rfl
    · exact Or.inr (stepFun_mem dflt f rest)

lemma stepFun_lb (dflt f : ℚ) :
    ∀ (table : List (ℚ × ℚ)) (v : ℚ),
      List.Chain' (· ≤ ·) (v :: (table.map Prod.snd ++ [dflt])) →
      v ≤ stepFun dflt table f
  | [], v => by
    intro hch
    simp only [List.map_nil, List.nil_append, List.chain'_cons, stepFun] at hch ⊢
    exact hch.1
  | (t, w) :: rest, v => by
    intro hch
    rw [List.map_cons, List.cons_append, List.chain'_cons] at hch
    simp only [stepFun]
    split_ifs
    · exact hch.1
    · exact le_trans hch.1 (stepFun_lb dflt f rest w hch.2)

lemma stepFun_mono (dflt f g : ℚ) (hfg : f ≤ g) :
    ∀ table : List (ℚ × ℚ),
      List.Chain' (· ≤ ·) (table.map Prod.snd ++ [dflt]) →
      stepFun dflt table f ≤ stepFun dflt table g
  | [] => by intro _; simp [stepFun]
  | (t, v) :: rest => by
    intro hch
    rw [List.map_cons, List.cons_append] at hch
    simp only [stepFun]
    by_cases hg : g < t
    · rw [if_pos (lt_of_le_of_lt hfg hg), if_pos hg]
    · rw [if_neg hg]
      by_cases hf : f < t
      · rw [if_pos hf]
        exact stepFun_lb dflt g rest v hch
      · rw [if_neg hf]
        exact stepFun_mono dflt f g hfg rest hch.tail

lemma freqTable_vals :
    freqTable.map Prod.snd ++ [(10.0 : ℚ)] =
      ([1, 1.5, 2, 2.5, 3, 4, 5, 6, 7, 8, 9, 10] : List ℚ) := by
  norm_num [freqTable]

lemma freqTable_chain :
    List.Chain' (· ≤ ·) (freqTable.map Prod.snd ++ [(10.0 : ℚ)]) := by
  rw [freqTable_vals]
  norm_num [List.chain'_cons]

lemma freqTable_chain_one :
    List.Chain' (· ≤ ·) ((1.0 : ℚ) :: (freqTable.map Prod.snd ++ [(10.0 : ℚ)])) := by
  rw [freqTable_vals]
  norm_num [List.chain'_cons]

/-- Claim C2: the detailed scale function always returns one of the 12
enumerated values, is monotonic non-decreasing in the raw frequency, and
equals the spec's 12-bucket step function. -/
theorem claim_C2_detailed_scale (f g : ℚ) (hfg : f ≤ g) :
    convert_frequency_to_detailed_scale f ∈
      ([1, 1.5, 2, 2.5, 3, 4, 5, 6, 7, 8, 9, 10] : List ℚ) ∧
    convert_frequency_to_detailed_scale f ≤ convert_frequency_to_detailed_scale g ∧
    convert_frequency_to_detailed_scale f = detailedScaleStep f := by
  refine ⟨?_, ?_, ?_⟩
  · rw [detailed_eq_stepFun, ← freqTable_vals]
    split_ifs
    · rw [freqTable_vals]
      norm_num
    · exact stepFun_mem 10.0 f freqTable
  · rw [detailed_eq_stepFun, detailed_eq_stepFun]
    split_ifs with hf0 hg0 hg0
    · exact le_refl _
    · exact stepFun_lb 10.0 g freqTable 1.0 freqTable_chain_one
    · have hf : f < 1e-7 := by
        rcases lt_or_eq_of_le (hg0 ▸ hfg) with h | h
        · linarith
        · exact absurd h hf0
      show stepFun 10.0 freqTable f ≤ 1.0
      simp only [stepFun, freqTable, if_pos hf]
      norm_num
    · exact stepFun_mono 10.0 f g hfg freqTable freqTable_chain
  · rw [detailed_eq_stepFun]
    unfold detailedScaleStep
    by_cases hf0 : f = 0
    · simp [hf0]
    · simp only [if_neg hf0, or_iff_right hf0, stepFun, freqTable]

theorem claim_C2_detailed_scale_witness :
    convert_frequency_to_detailed_scale 0.0000005 ∈
      ([1, 1.5, 2, 2.5, 3, 4, 5, 6, 7, 8, 9, 10] : List ℚ) ∧
    convert_frequency_to_detailed_scale 0.0000005 ≤
      convert_frequency_to_detailed_scale 0.00005 ∧
    convert_frequency_to_detailed_scale 0.0000005 = detailedScaleStep 0.0000005 :=
  claim_C2_detailed_scale 0.0000005 0.00005 (by norm_num)

lemma convert_to_user_scale_by_rank_eq (r T : ℤ) (hT : 0 < T) :
    convert_to_user_scale_by_rank r T =
      if 31 * T ≤ (T - r + 1) * 32 then 5
      else if 29 * T ≤ (T - r + 1) * 32 then 4
      else if 25 * T ≤ (T - r + 1) * 32 then 3
      else if 17 * T ≤ (T - r + 1) * 32 then 2
      else 1 := by
  have hTQ : (0 : ℚ) < (T : ℚ) := by exact_mod_cast hT
  have h5 : ((31 : ℚ) / 32 ≤ ((T : ℚ) - (r : ℚ) + 1) / (T : ℚ)) ↔
      31 * T ≤ (T - r + 1) * 32 := by
    rw [div_le_div_iff₀ (by norm_num) hTQ]
    constructor <;> intro h <;> exact_mod_cast h
  have h4 : ((29 : ℚ) / 32 ≤ ((T : ℚ) - (r : ℚ) + 1) / (T : ℚ)) ↔
      29 * T ≤ (T - r + 1) * 32 := by
    rw [div_le_div_iff₀ (by norm_num) hTQ]
    constructor <;> intro h <;> exact_mod_cast h
  have h3 : ((25 : ℚ) / 32 ≤ ((T : ℚ) - (r : ℚ) + 1) / (T : ℚ)) ↔
      25 * T ≤ (T - r + 1) * 32 := by
    rw [div_le_div_iff₀ (by norm_num) hTQ]
    constructor <;> intro h <;> exact_mod_cast h
  have h2 : ((17 : ℚ) / 32 ≤ ((T : ℚ) - (r : ℚ) + 1) / (T : ℚ)) ↔
      17 * T ≤ (T - r + 1) * 32 := by
    rw [div_le_div_iff₀ (by norm_num) hTQ]
    constructor <;> intro h <;> exact_mod_cast h
  simp only [convert_to_user_scale_by_rank, ge_iff_le,
    show (0.96875 : ℚ) = (31 : ℚ) / 32 by norm_num,
    show (0.90625 : ℚ) = (29 : ℚ) / 32 by norm_num,
    show (0.78125 : ℚ) = (25 : ℚ) / 32 by norm_num,
    show (0.53125 : ℚ) = (17 : ℚ) / 32 by norm_num,
    h5, h4, h3, h2]

/-- Counterexample to claim C3: the bands are not exactly in the ratio
16:8:4:2:1 out of 32.  At total = 32, the 16:8:4:2:1 split would put exactly
one rank in the score-5 band, but ranks 1 and 2 both score 5 (rank 2 has
percentile 31/32, which meets the inclusive threshold). -/
theorem claim_C3_rank_scale_counterexample :
    ((Finset.Icc (1 : ℤ) 32).filter
        (fun r => convert_to_user_scale_by_rank r 32 = 5)).card = 2 ∧
    (2 : ℕ) ≠ 1 := by
  constructor
  · have hcong : ∀ r ∈ Finset.Icc (1 : ℤ) 32,
        (convert_to_user_scale_by_rank r 32 = 5) ↔ (r ≤ 2) := by
      intro r hr
      rw [convert_to_user_scale_by_rank_eq r 32 (by norm_num)]
      split_ifs <;> omega
    rw [Finset.filter_congr hcong]
    have : (Finset.Icc (1 : ℤ) 32).filter (fun r => r ≤ 2) = Finset.Icc (1 : ℤ) 2 := by
      ext r
      simp only [Finset.mem_filter, Finset.mem_Icc]
      omega
    rw [this, Int.card_Icc]
    rfl
  · omega

/-- Claim C3 as amended: for total T ≥ 1 and ranks 1 ≤ r ≤ T, the rank-based
user-frequency function equals the spec's percentile step function, returns
an integer in {1,...,5}, and is monotonic non-increasing in the rank; the
cumulative bands are the initial rank segments cut by the inclusive
thresholds 31/32, 29/32, 25/32, 17/32, i.e. score ≥ 5,4,3,2 exactly on
32r ≤ kT + 32 for k = 1, 3, 7, 15 (so the band sizes only approximate the
16:8:4:2:1 ratio: each cumulative band gains the boundary rank, e.g. at
T = 32 the sizes are 16, 8, 4, 2, 2). -/
theorem claim_C3_rank_scale_amended (T r r' : ℤ) (hT : 1 ≤ T) (hr1 : 1 ≤ r)
    (hrT : r ≤ T) (hrr : r ≤ r') :
    convert_to_user_scale_by_rank r T = userScaleStep r T ∧
    (1 ≤ convert_to_user_scale_by_rank r T ∧ convert_to_user_scale_by_rank r T ≤ 5) ∧
    convert_to_user_scale_by_rank r' T ≤ convert_to_user_scale_by_rank r T ∧
    ((5 ≤ convert_to_user_scale_by_rank r T ↔ 32 * r ≤ T + 32) ∧
     (4 ≤ convert_to_user_scale_by_rank r T ↔ 32 * r ≤ 3 * T + 32) ∧
     (3 ≤ convert_to_user_scale_by_rank r T ↔ 32 * r ≤ 7 * T + 32) ∧
     (2 ≤ convert_to_user_scale_by_rank r T ↔ 32 * r ≤ 15 * T + 32)) := by
  have hT0 : (0 : ℤ) < T := by omega
  refine ⟨rfl, ?_, ?_, ?_⟩
  · rw [convert_to_user_scale_by_rank_eq r T hT0]
    split_ifs <;> omega
  · rw [convert_to_user_scale_by_rank_eq r T hT0,
      convert_to_user_scale_by_rank_eq r' T hT0]
    split_ifs <;> omega
  · rw [convert_to_user_scale_by_rank_eq r T hT0]
    split_ifs <;> omega

theorem claim_C3_rank_scale_amended_witness :
    convert_to_user_scale_by_rank 2 5 = userScaleStep 2 5 ∧
    (1 ≤ convert_to_user_scale_by_rank 2 5 ∧ convert_to_user_scale_by_rank 2 5 ≤ 5) ∧
    convert_to_user_scale_by_rank 3 5 ≤ convert_to_user_scale_by_rank 2 5 ∧
    ((5 ≤ convert_to_user_scale_by_rank 2 5 ↔ (32 : ℤ) * 2 ≤ 5 + 32) ∧
     (4 ≤ convert_to_user_scale_by_rank 2 5 ↔ (32 : ℤ) * 2 ≤ 3 * 5 + 32) ∧
     (3 ≤ convert_to_user_scale_by_rank 2 5 ↔ (32 : ℤ) * 2 ≤ 7 * 5 + 32) ∧
     (2 ≤ convert_to_user_scale_by_rank 2 5 ↔ (32 : ℤ) * 2 ≤ 15 * 5 + 32)) :=
  claim_C3_rank_scale_amended 5 2 3 (by norm_num) (by norm_num) (by norm_num) (by norm_num)

/-- Counterexample to claim C5: a raw frequency exactly equal to a threshold
fails the strict `<` and falls into the NEXT branch, so the boundary maps to
the scale of the upper bucket, not the lower one.  At f = 1e-6 the flat
scale returns 2, not 1. -/
theorem claim_C5_boundary_counterexample :
    convert_frequency_to_scale 1e-6 = 2 ∧ convert_frequency_to_scale 1e-6 ≠ 1 := by
  norm_num [convert_frequency_to_scale]

/-- Claim C5 as amended: each boundary input value exactly equal to 1e-6,
1e-5, 1e-4, or 1e-3 maps to the scale of the UPPER bucket, because the
strict-less-than comparison at its own threshold fails and the next branch
is taken. -/
theorem claim_C5_boundary_amended :
    convert_frequency_to_scale 1e-6 = 2 ∧ convert_frequency_to_scale 1e-5 = 3 ∧
    convert_frequency_to_scale 1e-4 = 4 ∧ convert_frequency_to_scale 1e-3 = 5 := by
  refine ⟨?_, ?_, ?_, ?_⟩ <;> norm_num [convert_frequency_to_scale]

/-- Counterexample to claim C6: the claimed flat-scale output for the second
word (raw frequency 0.003) is 4, but 0.003 is not below the 1e-3 threshold,
so the flat scale returns 5. -/
theorem claim_C6_example_counterexample :
    convert_frequency_to_scale 0.003 = 5 ∧ convert_frequency_to_scale 0.003 ≠ 4 := by
  norm_num [convert_frequency_to_scale]

/-- Claim C6 as amended: for the five raw frequencies
[0.02, 0.003, 0.00005, 0.0000005, 0] ranked in that order, the flat
scale outputs are [5, 5, 3, 1, 1] (not [5, 4, 3, 2, 1]: 0.003 ≥ 1e-3 gives
5 and 0.0000005 < 1e-6 gives 1); the detailed scale outputs are
[10.0, 8.0, 5.0, 2.0, 1.0] (not [10.0, 8.0, 4.0, 1.5, 1.0]: the inputs
exactly at thresholds 5e-5 and 5e-7 take the upper buckets 5.0 and 2.0);
and with total = 5 the rank-based user frequencies for ranks 1..5 are
[5, 3, 2, 1, 1] as the claim states. -/
theorem claim_C6_example_amended :
    (convert_frequency_to_scale 0.02 = 5 ∧ convert_frequency_to_scale 0.003 = 5 ∧
     convert_frequency_to_scale 0.00005 = 3 ∧ convert_frequency_to_scale 0.0000005 = 1 ∧
     convert_frequency_to_scale 0 = 1) ∧
    (convert_frequency_to_detailed_scale 0.02 = 10.0 ∧
     convert_frequency_to_detailed_scale 0.003 = 8.0 ∧
     convert_frequency_to_detailed_scale 0.00005 = 5.0 ∧
     convert_frequency_to_detailed_scale 0.0000005 = 2.0 ∧
     convert_frequency_to_detailed_scale 0 = 1.0) ∧
    (convert_to_user_scale_by_rank 1 5 = 5 ∧ convert_to_user_scale_by_rank 2 5 = 3 ∧
     convert_to_user_scale_by_rank 3 5 = 2 ∧ convert_to_user_scale_by_rank 4 5 = 1 ∧
     convert_to_user_scale_by_rank 5 5 = 1) := by
  refine ⟨⟨?_, ?_, ?_, ?_, ?_⟩, ⟨?_, ?_, ?_, ?_, ?_⟩, ⟨?_, ?_, ?_, ?_, ?_⟩⟩ <;>
    norm_num [convert_frequency_to_scale, convert_frequency_to_detailed_scale,
      convert_to_user_scale_by_rank]

lemma countP_zip_fst {α : Type} (p : ℕ → Bool) :
    ∀ (is : List ℕ) (xs : List α), xs.length = is.length →
      ((is.zip xs).countP (fun q => p q.1)) = is.countP p := by
  intro is
  induction is with
  | nil =>
    intro xs h
    simp
  | cons i it ih =>
    intro xs h
    cases xs with
    | nil => simp at h
    | cons x xt =>
      simp only [List.zip_cons_cons, List.countP_cons, ih xt (by simpa using h)]

lemma countP_range_band (a b : ℕ) :
    ∀ T, (List.range T).countP (fun i => decide (a ≤ i ∧ i < b)) = min b T - min a T := by
  intro T
  induction T with
  | zero => simp
  | succ n ih =>
    rw [List.range_succ, List.countP_append, ih]
    simp only [List.countP_cons, List.countP_nil]
    split_ifs with h
    · simp only [decide_eq_true_eq] at h
      omega
    · simp only [decide_eq_true_eq, not_and, not_lt] at h
      omega

lemma tierEntries_length (wf : String → ℚ) (ws : List String) (t : Tier) :
    (tierEntries wf ws t).length =
      (List.range ws.length).countP (fun i => decide (tierOf i = t)) := by
  rw [tierEntries, List.length_map, ← List.countP_eq_length_filter,
    List.enum_eq_zip_range, countP_zip_fst (fun i => decide (tierOf i = t))]
  simp

lemma tierOf_band (t : Tier) (i : ℕ) (T : ℕ) (hi : i < T) :
    (tierOf i = t) ↔
      (match t with
        | Tier.core => 0 ≤ i ∧ i < 15000
        | Tier.extended => 15000 ≤ i ∧ i < 65000
        | Tier.complete => 65000 ≤ i ∧ i < T) := by
  cases t <;> unfold tierOf <;> split_ifs <;> simp <;> omega

/-- Claim C4: the tiered exporter assigns each word entry to a tier purely
by its rank: core = ranks [1, min(15000,T)], extended =
(15000, min(65000,T)], complete = (65000, T]; the three tiers partition the
word list with no overlap and no gaps, and their sizes sum to T. -/
theorem claim_C4_tier_partition (wf : String → ℚ) (ws : List String) (i : ℕ)
    (hi : i < ws.length) :
    (tierEntries wf ws Tier.core).length = min 15000 ws.length ∧
    (tierEntries wf ws Tier.extended).length =
      min 65000 ws.length - min 15000 ws.length ∧
    (tierEntries wf ws Tier.complete).length = ws.length - min 65000 ws.length ∧
    (tierEntries wf ws Tier.core).length + (tierEntries wf ws Tier.extended).length +
      (tierEntries wf ws Tier.complete).length = ws.length ∧
    ((tierOf i = Tier.core ↔ 1 ≤ i + 1 ∧ i + 1 ≤ min 15000 ws.length) ∧
     (tierOf i = Tier.extended ↔ 15000 < i + 1 ∧ i + 1 ≤ min 65000 ws.length) ∧
     (tierOf i = Tier.complete ↔ 65000 < i + 1 ∧ i + 1 ≤ ws.length)) := by
  have hcore : (tierEntries wf ws Tier.core).length = min 15000 ws.length := by
    rw [tierEntries_length]
    have hc : (List.range ws.length).countP (fun i => decide (tierOf i = Tier.core)) =
        (List.range ws.length).countP (fun i => decide (0 ≤ i ∧ i < 15000)) :=
      List.countP_congr (fun i hi => by
        simp only [List.mem_range] at hi
        simpa using tierOf_band Tier.core i ws.length hi)
    rw [hc, countP_range_band 0 15000]
    omega
  have hext : (tierEntries wf ws Tier.extended).length =
      min 65000 ws.length - min 15000 ws.length := by
    rw [tierEntries_length]
    have hc : (List.range ws.length).countP (fun i => decide (tierOf i = Tier.extended)) =
        (List.range ws.length).countP (fun i => decide (15000 ≤ i ∧ i < 65000)) :=
      List.countP_congr (fun i hi => by
        simp only [List.mem_range] at hi
        simpa using tierOf_band Tier.extended i ws.length hi)
    rw [hc, countP_range_band 15000 65000]
  have hcomp : (tierEntries wf ws Tier.complete).length =
      ws.length - min 65000 ws.length := by
    rw [tierEntries_length]
    have hc : (List.range ws.length).countP (fun i => decide (tierOf i = Tier.complete)) =
        (List.range ws.length).countP (fun i => decide (65000 ≤ i ∧ i < ws.length)) :=
      List.countP_congr (fun i hi => by
        simp only [List.mem_range] at hi
        simpa using tierOf_band Tier.complete i ws.length hi)
    rw [hc, countP_range_band 65000 ws.length]
    omega
  refine ⟨hcore, hext, hcomp, by omega, ?_, ?_, ?_⟩ <;>
    unfold tierOf <;> split_ifs <;> simp <;> omega

theorem claim_C4_tier_partition_witness :
    (tierEntries (fun _ => 0.003) ["a", "b"] Tier.core).length =
      min 15000 (["a", "b"] : List String).length ∧
    (tierEntries (fun _ => 0.003) ["a", "b"] Tier.extended).length =
      min 65000 (["a", "b"] : List String).length -
        min 15000 (["a", "b"] : List String).length ∧
    (tierEntries (fun _ => 0.003) ["a", "b"] Tier.complete).length =
      (["a", "b"] : List String).length - min 65000 (["a", "b"] : List String).length ∧
    (tierEntries (fun _ => 0.003) ["a", "b"] Tier.core).length +
      (tierEntries (fun _ => 0.003) ["a", "b"] Tier.extended).length +
      (tierEntries (fun _ => 0.003) ["a", "b"] Tier.complete).length =
      (["a", "b"] : List String).length ∧
    ((tierOf 0 = Tier.core ↔ 1 ≤ 0 + 1 ∧ 0 + 1 ≤ min 15000 (["a", "b"] : List String).length) ∧
     (tierOf 0 = Tier.extended ↔ 15000 < 0 + 1 ∧ 0 + 1 ≤ min 65000 (["a", "b"] : List String).length) ∧
     (tierOf 0 = Tier.complete ↔ 65000 < 0 + 1 ∧ 0 + 1 ≤ (["a", "b"] : List String).length)) :=
  claim_C4_tier_partition (fun _ => 0.003) ["a", "b"] 0 (by norm_num)

lemma find_last_of_nodup :
    ∀ (l : List WordEntry) (e : WordEntry), e ∈ l →
      (l.map WordEntry.word).Nodup →
      l.reverse.find? (fun x => x.word = e.word) = some e
  | [], e => by
    intro he _
    exact absurd he (List.not_mem_nil e)
  | a :: t, e => by
    intro he hnd
    rw [List.map_cons, List.nodup_cons] at hnd
    rw [List.reverse_cons, List.find?_append]
    rcases List.mem_cons.mp he with rfl | het
    · have hnone : t.reverse.find? (fun x => x.word = e.word) = none := by
        rw [List.find?_eq_none]
        intro x hx
        simp only [decide_eq_true_eq]
        intro hxe
        exact hnd.1 (hxe ▸ List.mem_map_of_mem WordEntry.word (List.mem_reverse.mp hx))
      rw [hnone]
      simp
    · rw [find_last_of_nodup t e het hnd.2]
      rfl

/-- Claim C7: for every tier and every entry in its words array, the lookup
object's value for that entry's word is exactly the entry's frequency, rank
and user_frequency (round-trip between the two representations), provided
the ranked word list has no duplicate words. -/
theorem claim_C7_lookup_roundtrip (wf : String → ℚ) (ws : List String) (t : Tier)
    (hnd : ws.Nodup) :
    ∀ e ∈ tierEntries wf ws t,
      lookupOf (tierEntries wf ws t) e.word =
        some (e.frequency, e.rank, e.user_frequency) := by
  intro e he
  have hwords : ((tierEntries wf ws t).map WordEntry.word).Nodup := by
    have heq : (tierEntries wf ws t).map WordEntry.word =
        (ws.enum.filter (fun p => tierOf p.1 = t)).map Prod.snd := by
      rw [tierEntries, List.map_map]
      rfl
    rw [heq]
    have hsub : ((ws.enum.filter (fun p => tierOf p.1 = t)).map Prod.snd).Sublist
        (ws.enum.map Prod.snd) :=
      List.Sublist.map Prod.snd (List.filter_sublist ws.enum)
    rw [List.enum_map_snd] at hsub
    exact hnd.sublist hsub
  rw [lookupOf, find_last_of_nodup (tierEntries wf ws t) e he hwords]
  rfl

theorem claim_C7_lookup_roundtrip_witness :
    lookupOf (tierEntries (fun _ => 0.003) ["a", "b"] Tier.core)
        (mkWordEntry (fun _ => 0.003) 2 0 "a").word =
      some ((mkWordEntry (fun _ => 0.003) 2 0 "a").frequency,
        (mkWordEntry (fun _ => 0.003) 2 0 "a").rank,
        (mkWordEntry (fun _ => 0.003) 2 0 "a").user_frequency) :=
  claim_C7_lookup_roundtrip (fun _ => 0.003) ["a", "b"] Tier.core (by simp)
    (mkWordEntry (fun _ => 0.003) 2 0 "a")
    (by
      rw [show tierEntries (fun _ => 0.003) ["a", "b"] Tier.core =
        [mkWordEntry (fun _ => 0.003) 2 0 "a",
         mkWordEntry (fun _ => 0.003) 2 1 "b"] from rfl]
      exact List.mem_cons_self _ _)

lemma probeAux_none (src : ℕ → Option ℕ) (s : ℕ) (rest : List ℕ) (acc : ℕ)
    (h : src s = none) : probeAux src (s :: rest) acc = acc := by
  simp [probeAux, h]

lemma probeAux_some (src : ℕ → Option ℕ) (s : ℕ) (rest : List ℕ) (acc len : ℕ)
    (h : src s = some len) :
    probeAux src (s :: rest) acc = if len < s then len else probeAux src rest len := by
  simp [probeAux, h]

lemma callsUntilFailure_some (src : ℕ → Option ℕ) (s : ℕ) (rest : List ℕ) (len : ℕ)
    (h : src s = some len) :
    callsUntilFailure src (s :: rest) = (s, len) :: callsUntilFailure src rest := by
  simp [callsUntilFailure, h]

lemma claimProbeFrom_none (src : ℕ → Option ℕ) (s : ℕ) (rest : List ℕ) (dflt : ℕ)
    (h : src s = none) : claimProbeFrom src (s :: rest) dflt = dflt := by
  simp [claimProbeFrom, callsUntilFailure, h]

lemma claimProbeFrom_some_lt (src : ℕ → Option ℕ) (s : ℕ) (rest : List ℕ)
    (dflt len : ℕ) (h : src s = some len) (hlt : len < s) :
    claimProbeFrom src (s :: rest) dflt = len := by
  rw [claimProbeFrom, callsUntilFailure_some src s rest len h,
    List.find?_cons_of_pos _ (by simpa using hlt)]

lemma claimProbeFrom_some_ge (src : ℕ → Option ℕ) (s : ℕ) (rest : List ℕ)
    (dflt len : ℕ) (h : src s = some len) (hge : ¬ len < s) :
    claimProbeFrom src (s :: rest) dflt =
      match (callsUntilFailure src rest).find? (fun p => p.2 < p.1) with
      | some p => p.2
      | none =>
        (((s, len) :: callsUntilFailure src rest).map Prod.snd).foldl max 0 := by
  rw [claimProbeFrom, callsUntilFailure_some src s rest len h,
    List.find?_cons_of_neg _ (by simpa using hge)]

lemma probeAux_eq_claimFrom (src : ℕ → Option ℕ)
    (hle : ∀ s c, src s = some c → c ≤ s) :
    ∀ (sizes : List ℕ) (acc : ℕ), List.Chain' (· ≤ ·) sizes →
      probeAux src sizes acc = claimProbeFrom src sizes acc
  | [], acc => by
    intro _
    rfl
  | s :: rest, acc => by
    intro hch
    cases hsrc : src s with
    | none => rw [probeAux_none src s rest acc hsrc, claimProbeFrom_none src s rest acc hsrc]
    | some len =>
      by_cases hlt : len < s
      · rw [probeAux_some src s rest acc len hsrc, if_pos hlt,
          claimProbeFrom_some_lt src s rest acc len hsrc hlt]
      · rw [probeAux_some src s rest acc len hsrc, if_neg hlt,
          claimProbeFrom_some_ge src s rest acc len hsrc hlt,
          probeAux_eq_claimFrom src hle rest len hch.tail]
        cases hf : (callsUntilFailure src rest).find? (fun p => p.2 < p.1) with
        | some p => simp [claimProbeFrom, hf]
        | none =>
          cases hcr : callsUntilFailure src rest with
          | nil => simp [claimProbeFrom, hcr]
          | cons q qs =>
            cases rest with
            | nil => simp [callsUntilFailure] at hcr
            | cons s' rest' =>
              rcases hsrc' : src s' with _ | len'
              · rw [callsUntilFailure, hsrc'] at hcr
                simp at hcr
              · have hq : q = (s', len') := by
                  have h2 := hcr
                  rw [callsUntilFailure_some src s' rest' len' hsrc',
                    List.cons.injEq] at h2
                  exact h2.1.symm
                rw [hcr] at hf
                have hlen : len ≤ s := hle s len hsrc
                have hss' : s ≤ s' := (List.chain'_cons.mp hch).1
                have hnotlt : ¬ len' < s' := by
                  have hm : (s', len') ∈ callsUntilFailure src (s' :: rest') := by
                    rw [callsUntilFailure_some src s' rest' len' hsrc']
                    exact List.mem_cons_self _ _
                  rw [hcr] at hm
                  have := List.find?_eq_none.mp hf (s', len') hm
                  simpa using this
                have hlq : len ≤ q.2 := by
                  rw [hq]
                  omega
                simp only [claimProbeFrom, hcr, hf, List.map_cons, List.foldl_cons,
                  Nat.zero_max]
                rw [max_eq_right hlq]

lemma probeAux_minSrc (N : ℕ) :
    ∀ (sizes : List ℕ) (acc : ℕ), List.Chain' (· < ·) sizes →
      (∃ s ∈ sizes, N ≤ s) → probeAux (minSrc N) sizes acc = N
  | [], acc => by
    intro _ h
    rcases h with ⟨s, hs, _⟩
    cases hs
  | s :: rest, acc => by
    intro hch hex
    rw [probeAux_some (minSrc N) s rest acc (min N s) rfl]
    by_cases hNs : N ≤ s
    · rcases lt_or_eq_of_le hNs with hlt | heq
      · rw [min_eq_left (le_of_lt hlt), if_pos hlt]
      · rw [min_eq_left hNs, if_neg (by omega)]
        cases rest with
        | nil => rw [probeAux, heq]
        | cons s' rest' =>
          have hss' : s < s' := (List.chain'_cons.mp hch).1
          rw [probeAux_some (minSrc N) s' rest' N (min N s') rfl]
          rw [min_eq_left (by omega), if_pos (by omega)]
    · push_neg at hNs
      rw [min_eq_right (le_of_lt hNs), if_neg (lt_irrefl s)]
      apply probeAux_minSrc N rest s hch.tail
      rcases hex with ⟨x, hx, hNx⟩
      rcases List.mem_cons.mp hx with rfl | hx'
      · exact absurd hNx (by omega)
      · exact ⟨x, hx', hNx⟩

/-- Claim C8: for any source whose successful calls never return more words
than requested, the auto-probe tries the candidate sizes 100000..500000 in
order and returns the first returned count smaller than its request, else
the largest successful count, else the 50000 floor; in particular against a
source holding exactly N words (answering min(N, requested)) it terminates
and returns exactly N whenever some candidate is at least N. -/
theorem claim_C8_auto_probe (src : ℕ → Option ℕ)
    (hle : ∀ s c, src s = some c → c ≤ s) (N : ℕ)
    (hN : ∃ s ∈ test_sizes, N ≤ s) :
    autoProbe src = claimProbe src ∧ autoProbe (minSrc N) = N := by
  constructor
  · exact probeAux_eq_claimFrom src hle test_sizes 50000
      (by norm_num [test_sizes, List.chain'_cons])
  · exact probeAux_minSrc N test_sizes 50000
      (by norm_num [test_sizes, List.chain'_cons]) hN

theorem claim_C8_auto_probe_witness :
    autoProbe (minSrc 150000) = claimProbe (minSrc 150000) ∧
    autoProbe (minSrc 150000) = 150000 :=
  claim_C8_auto_probe (minSrc 150000)
    (fun s c h => by
      simp only [minSrc, Option.some.injEq] at h
      omega)
    150000 ⟨200000, by norm_num [test_sizes], by norm_num⟩

/-- Claim C9: an exception while exporting one language is caught at
language granularity: that language's export returns a zero word count, and
both main loops still produce one result per configured language, each
language's result depending only on its own fetch outcome. -/
theorem claim_C9_error_isolation (langs : List (String × String))
    (fetchOf : String → Except String (List String))
    (wfOf : String → String → ℚ) (l : String × String) (e : String) (i : ℕ)
    (hl : l ∈ langs) (he : fetchOf l.2 = Except.error e) :
    export_language_frequencies (fetchOf l.2) (wfOf l.2) = 0 ∧
    export_tiered_language_data (fetchOf l.2) = 0 ∧
    (flatMain langs fetchOf wfOf).length = langs.length ∧
    (tieredMain langs fetchOf).length = langs.length ∧
    (flatMain langs fetchOf wfOf).get? i =
      (langs.get? i).map (fun p => export_language_frequencies (fetchOf p.2) (wfOf p.2)) ∧
    (tieredMain langs fetchOf).get? i =
      (langs.get? i).map (fun p => export_tiered_language_data (fetchOf p.2)) := by
  refine ⟨?_, ?_, ?_, ?_, ?_, ?_⟩
  · simp only [export_language_frequencies, he]
  · simp only [export_tiered_language_data, he]
  · simp [flatMain]
  · simp [tieredMain]
  · simp [flatMain, List.get?_map]
  · simp [tieredMain, List.get?_map]

theorem claim_C9_error_isolation_witness :
    export_language_frequencies ((fun _ => Except.error "boom") "en")
      ((fun _ _ => (0.003 : ℚ)) "en") = 0 ∧
    export_tiered_language_data ((fun _ => Except.error "boom") "en") = 0 ∧
    (flatMain languages (fun _ => Except.error "boom") (fun _ _ => 0.003)).length =
      languages.length ∧
    (tieredMain languages (fun _ => Except.error "boom")).length = languages.length ∧
    (flatMain languages (fun _ => Except.error "boom") (fun _ _ => 0.003)).get? 1 =
      (languages.get? 1).map (fun p =>
        export_language_frequencies ((fun _ => Except.error "boom") p.2)
          ((fun _ _ => 0.003) p.2)) ∧
    (tieredMain languages (fun _ => Except.error "boom")).get? 1 =
      (languages.get? 1).map (fun p =>
        export_tiered_language_data ((fun _ => Except.error "boom") p.2)) :=
  claim_C9_error_isolation languages (fun _ => Except.error "boom")
    (fun _ _ => 0.003) ("English", "en") "boom" 1
    (List.mem_cons_self _ _) rfl

/-- Counterexample to claim C10: with a nonzero but negative total, a rank
greater than the total does not map to 1: at rank 5 and total -1 the
percentile is (-1 - 5 + 1)/(-1) = 5, which passes the top threshold, so the
function returns 5. -/
theorem claim_C10_total_range_counterexample :
    ((-1 : ℤ) ≠ 0 ∧ (-1 : ℤ) < 5) ∧
    convert_to_user_scale_by_rank 5 (-1) = 5 ∧
    convert_to_user_scale_by_rank 5 (-1) ≠ 1 := by
  refine ⟨⟨by norm_num, by norm_num⟩, ?_, ?_⟩ <;>
    norm_num [convert_to_user_scale_by_rank]

/-- Claim C10 as amended: the three scale functions are total and in-range
on all inputs: every rational f (negative included) gets a flat scale in
{1,...,5} (negative f gives 1) and a detailed scale among the 12 enumerated
values (negative f gives 1.0); for every integer rank and nonzero total the
rank function returns an integer in {1,...,5}; and when the total is
POSITIVE (not merely nonzero), a rank above the total yields 1. -/
theorem claim_C10_total_range_amended (f : ℚ) (r T : ℤ) (hT : T ≠ 0) :
    (1 ≤ convert_frequency_to_scale f ∧ convert_frequency_to_scale f ≤ 5) ∧
    (f < 0 → convert_frequency_to_scale f = 1) ∧
    convert_frequency_to_detailed_scale f ∈
      ([1, 1.5, 2, 2.5, 3, 4, 5, 6, 7, 8, 9, 10] : List ℚ) ∧
    (f < 0 → convert_frequency_to_detailed_scale f = 1.0) ∧
    (1 ≤ convert_to_user_scale_by_rank r T ∧ convert_to_user_scale_by_rank r T ≤ 5) ∧
    (0 < T → T < r → convert_to_user_scale_by_rank r T = 1) := by
  refine ⟨?_, ?_, ?_, ?_, ?_, ?_⟩
  · unfold convert_frequency_to_scale
    split_ifs <;> omega
  · intro hneg
    unfold convert_frequency_to_scale
    rw [if_neg (by exact ne_of_lt hneg), if_pos (by linarith)]
  · rw [detailed_eq_stepFun, ← freqTable_vals]
    split_ifs
    · rw [freqTable_vals]
      norm_num
    · exact stepFun_mem 10.0 f freqTable
  · intro hneg
    rw [detailed_eq_stepFun, if_neg (by exact ne_of_lt hneg)]
    show stepFun 10.0 freqTable f = 1.0
    rw [freqTable, stepFun, if_pos (by linarith)]
  · simp only [convert_to_user_scale_by_rank]
    split_ifs <;> omega
  · intro hT0 hr
    rw [convert_to_user_scale_by_rank_eq r T hT0]
    split_ifs <;> omega

theorem claim_C10_total_range_amended_witness :
    (1 ≤ convert_frequency_to_scale (-0.5) ∧ convert_frequency_to_scale (-0.5) ≤ 5) ∧
    ((-0.5 : ℚ) < 0 → convert_frequency_to_scale (-0.5) = 1) ∧
    convert_frequency_to_detailed_scale (-0.5) ∈
      ([1, 1.5, 2, 2.5, 3, 4, 5, 6, 7, 8, 9, 10] : List ℚ) ∧
    ((-0.5 : ℚ) < 0 → convert_frequency_to_detailed_scale (-0.5) = 1.0) ∧
    (1 ≤ convert_to_user_scale_by_rank 7 5 ∧ convert_to_user_scale_by_rank 7 5 ≤ 5) ∧
    ((0 : ℤ) < 5 → (5 : ℤ) < 7 → convert_to_user_scale_by_rank 7 5 = 1) :=
  claim_C10_total_range_amended (-0.5) 7 5 (by norm_num)
